import Mathlib

/-!
Verification development for the interactive Go test runner
(scheduler in runner.go, session controller and discovery in the TUI model).

The scheduler is embedded as a labelled transition system over an explicit
state record.  Job records live in a heap (a list indexed by job id, the
embedding of Go pointers), and the shared display list is a list of job ids.
Go `time.Time` zero values are embedded as `Option Nat` with a logical clock
stamped on each mutation; the `context.CancelFunc` handle is embedded as a
Bool recording whether the handle is non-nil.  Each `go r.runTest(item)`
statement spawns an execution task; in-flight tasks are kept in a bag, and
the lock-delimited sections of `runTest` become separate transition labels,
so the interleavings the Go scheduler allows are represented.
-/

/-- Embedding of `TestStatus` from runner.go. -/
inductive TestStatus where
  | idle
  | queued
  | running
  | passed
  | failed
deriving DecidableEq, Repr

/-- Numeric value of a status, mirroring the Go iota order
(used by the status sort comparator, which compares the enum values). -/
def TestStatus.toNat : TestStatus → Nat
  | .idle => 0
  | .queued => 1
  | .running => 2
  | .passed => 3
  | .failed => 4

/-- Embedding of `TestInfo` from the discovery file. -/
structure TestInfo where
  name : String
  pkg : String
  file : String
  line : Nat
deriving DecidableEq, Repr

/-- Embedding of `TestItem` from runner.go.  Timestamps are `Option Nat`
(`none` embeds the Go zero `time.Time`); `cancel` records whether the
`context.CancelFunc` field is non-nil; `logFile` uses the Go convention of
the empty string for unset. -/
structure TestItem where
  info : TestInfo
  status : TestStatus
  selected : Bool
  logFile : String
  queuedAt : Option Nat
  startedAt : Option Nat
  finishedAt : Option Nat
  cancel : Bool
deriving DecidableEq, Repr

/-- Default record used to totalise heap lookups (out-of-range ids never
occur in the states built by the claims). -/
def defaultItem : TestItem :=
  { info := { name := "", pkg := "", file := "", line := 0 }
  , status := .idle
  , selected := false
  , logFile := ""
  , queuedAt := none
  , startedAt := none
  , finishedAt := none
  , cancel := false }

/-- Prefix test on character lists (structural helper for substring search). -/
def isPre : List Char → List Char → Bool
  | [], _ => true
  | _ :: _, [] => false
  | a :: as, b :: bs => a == b && isPre as bs

/-- Embedding of Go `strings.Contains hay needle` on character lists. -/
def containsSub : List Char → List Char → Bool
  | [], needle => needle.isEmpty
  | a :: rest, needle => isPre needle (a :: rest) || containsSub rest needle

/-- Lower-cased character list of a string.  Embeds `strings.ToLower`
(ASCII case folding; it agrees with the Go function on the ASCII inputs
used throughout). -/
def lowerOf (s : String) : List Char :=
  s.data.map Char.toLower

/-- Embedding of `strings.Contains(strings.ToLower(hay), strings.ToLower(needle))`,
the case-insensitive match used by the filter and the output search. -/
def containsCI (hay needle : String) : Bool :=
  containsSub (lowerOf hay) (lowerOf needle)

/-- Phase of an in-flight execution task: spawned by `tryStartNext` but its
first lock section not yet executed (`launched`), or past the section that
stamps `Running` (`started`). -/
inductive Phase where
  | launched
  | started
deriving DecidableEq, Repr

/-- An in-flight execution task (`go r.runTest(item)`), identified by the job
id it was launched for. -/
structure ExecTask where
  id : Nat
  phase : Phase
deriving DecidableEq, Repr

/-- Embedding of the scheduler state: the job-record heap, the shared list
reference (`r.tests`, which aliases the session filteredList), the ceiling,
the running counter, the bag of in-flight execution tasks, and the clock. -/
structure SchedState where
  recs : List TestItem
  view : List Nat
  maxParallel : Nat
  running : Nat
  tasks : List ExecTask
  now : Nat
deriving DecidableEq, Repr

/-- Heap lookup, totalised with the default record. -/
def recOf (s : SchedState) (id : Nat) : TestItem :=
  (s.recs.get? id).getD defaultItem

/-- Status of the record with the given id. -/
def statusOf (s : SchedState) (id : Nat) : TestStatus :=
  (recOf s id).status

/-- Name of a record in a raw heap (shared between scheduler and session). -/
def nameOf (recs : List TestItem) (id : Nat) : String :=
  ((recs.get? id).getD defaultItem).info.name

/-- The scan in `tryStartNext`: first id in the shared list whose record
status is `Queued`. -/
def firstQueued (s : SchedState) : Option Nat :=
  s.view.find? (fun id => decide (statusOf s id = TestStatus.queued))

/-- One admission: `r.running++` followed by `go r.runTest(nextItem)`.
Note the record itself is not touched here: runner.go only increments the
counter and spawns the goroutine. -/
def spawn (s : SchedState) (id : Nat) : SchedState :=
  { s with running := s.running + 1
         , tasks := s.tasks ++ [ExecTask.mk id Phase.launched] }

/-- The `for r.running < r.maxParallel` loop of `tryStartNext`, unrolled on
explicit fuel.  Each iteration that admits increments `running`, so fuel
`maxParallel - running` makes the unrolling exact. -/
def tryStartLoop : Nat → SchedState → SchedState
  | 0, s => s
  | Nat.succ fuel, s =>
    if s.running < s.maxParallel then
      match firstQueued s with
      | some id => tryStartLoop fuel (spawn s id)
      | none => s
    else s

/-- Embedding of `tryStartNext` (runner.go lines 178-206). -/
def tryStartNextFn (s : SchedState) : SchedState :=
  tryStartLoop (s.maxParallel - s.running) s

/-- Embedding of `QueueTest` (runner.go lines 138-156): no-op while Queued or
Running, otherwise stamp Queued and the log-file name and attempt admission.
The `notifyUpdate` callback is a no-op in this application and is elided. -/
def queueTest (s : SchedState) (id : Nat) : SchedState :=
  match s.recs.get? id with
  | none => s
  | some item =>
    if item.status = TestStatus.running || item.status = TestStatus.queued then s
    else
      let item2 := { item with status := TestStatus.queued
                             , queuedAt := some s.now
                             , logFile := item.info.name ++ "." ++ toString s.now ++ ".log" }
      tryStartNextFn { s with recs := s.recs.set id item2, now := s.now + 1 }

/-- Embedding of `StopTest` (runner.go lines 159-175).  On a Queued job only
the status is reset to Idle (the timestamp and log-file fields are left as
they are, exactly as in the source); on a Running job the cancellation
handle is invoked, which mutates no record field. -/
def stopTest (s : SchedState) (id : Nat) : SchedState :=
  match s.recs.get? id with
  | none => s
  | some item =>
    match item.status with
    | TestStatus.queued =>
        { s with recs := s.recs.set id { item with status := TestStatus.idle } }
    | _ => s

/-- Embedding of `testFinished` (runner.go lines 264-271): decrement the
running counter and re-invoke admission. -/
def testFinishedFn (s : SchedState) : SchedState :=
  tryStartNextFn { s with running := s.running - 1 }

/-- Embedding of the first lock section of `runTest` (runner.go lines
209-218): stamp Running and `startedAt` and install the cancellation
handle; the task moves to the `started` phase. -/
def startStep (s : SchedState) (id : Nat) : SchedState :=
  match s.recs.get? id with
  | none => { s with tasks := s.tasks.erase (ExecTask.mk id Phase.launched) }
  | some item =>
      let item2 := { item with status := TestStatus.running
                             , startedAt := some s.now
                             , cancel := true }
      { s with recs := s.recs.set id item2
             , tasks := (s.tasks.erase (ExecTask.mk id Phase.launched)) ++ [ExecTask.mk id Phase.started]
             , now := s.now + 1 }

/-- Embedding of the `os.Create` failure path of `runTest` (runner.go lines
221-229): stamp Failed and `finishedAt` and return through `testFinished`.
The cancellation handle is NOT cleared on this path, exactly as in the
source. -/
def logFailStep (s : SchedState) (id : Nat) : SchedState :=
  match s.recs.get? id with
  | none => testFinishedFn { s with tasks := s.tasks.erase (ExecTask.mk id Phase.started) }
  | some item =>
      let item2 := { item with status := TestStatus.failed
                             , finishedAt := some s.now }
      testFinishedFn
        { s with recs := s.recs.set id item2
               , tasks := s.tasks.erase (ExecTask.mk id Phase.started)
               , now := s.now + 1 }

/-- Embedding of the completion section of `runTest` (runner.go lines
246-261): stamp `finishedAt`, set Failed when the context was cancelled or
the backend returned an error and Passed otherwise, clear the handle, then
`testFinished`. -/
def finishStep (s : SchedState) (id : Nat) (cancelled backendErr : Bool) : SchedState :=
  match s.recs.get? id with
  | none => testFinishedFn { s with tasks := s.tasks.erase (ExecTask.mk id Phase.started) }
  | some item =>
      let item2 := { item with finishedAt := some s.now
                             , status := if cancelled || backendErr
                                         then TestStatus.failed else TestStatus.passed
                             , cancel := false }
      testFinishedFn
        { s with recs := s.recs.set id item2
               , tasks := s.tasks.erase (ExecTask.mk id Phase.started)
               , now := s.now + 1 }

/-- Embedding of `SetMaxParallel` (runner.go lines 96-103). -/
def setMaxParallelFn (s : SchedState) (n : Nat) : SchedState :=
  tryStartNextFn { s with maxParallel := n }

/-- Embedding of `GetQueuedCount` (runner.go lines 120-135): scan the shared
list counting Queued records. -/
def getQueuedCountFn (s : SchedState) : Nat :=
  (s.view.filter (fun id => decide (statusOf s id = TestStatus.queued))).length

/-- Overwrite the status of one record (used to express that the queued
count is insensitive to records outside the shared view). -/
def setStatusFn (s : SchedState) (id : Nat) (st : TestStatus) : SchedState :=
  { s with recs := s.recs.set id { recOf s id with status := st } }

/-- Transition labels of the scheduler system.  `setView` embeds the session
controller reassigning or permuting the shared list (applyFilter,
moveItemUp, moveItemDown, applySorting all mutate the list the runner
aliases). -/
inductive SLabel where
  | enqueue (id : Nat)
  | stop (id : Nat)
  | setMax (n : Nat)
  | taskStart (id : Nat)
  | taskLogFail (id : Nat)
  | taskFinish (id : Nat) (cancelled backendErr : Bool)
  | setView (v : List Nat)
deriving DecidableEq, Repr

/-- Small-step transition relation of the scheduler.  The task-step labels
are enabled only when a task in the matching phase is in flight; `setMax`
carries the caller policy that the ceiling stays at least 1. -/
inductive Step : SchedState → SLabel → SchedState → Prop where
  | enqueue (s : SchedState) (id : Nat) :
      Step s (SLabel.enqueue id) (queueTest s id)
  | stop (s : SchedState) (id : Nat) :
      Step s (SLabel.stop id) (stopTest s id)
  | setMax (s : SchedState) (n : Nat) (h : 1 ≤ n) :
      Step s (SLabel.setMax n) (setMaxParallelFn s n)
  | taskStart (s : SchedState) (id : Nat)
      (h : ExecTask.mk id Phase.launched ∈ s.tasks) :
      Step s (SLabel.taskStart id) (startStep s id)
  | taskLogFail (s : SchedState) (id : Nat)
      (h : ExecTask.mk id Phase.started ∈ s.tasks) :
      Step s (SLabel.taskLogFail id) (logFailStep s id)
  | taskFinish (s : SchedState) (id : Nat) (c e : Bool)
      (h : ExecTask.mk id Phase.started ∈ s.tasks) :
      Step s (SLabel.taskFinish id c e) (finishStep s id c e)
  | setView (s : SchedState) (v : List Nat) :
      Step s (SLabel.setView v) { s with view := v }

/-- Reachability in the scheduler transition system. -/
def Reaches (a b : SchedState) : Prop :=
  Relation.ReflTransGen (fun x y => ∃ l, Step x l y) a b

/-- Initial scheduler state: a freshly discovered heap, the view in heap
order, no running jobs, no tasks. -/
def initState (recs : List TestItem) (mp : Nat) : SchedState :=
  { recs := recs
  , view := List.range recs.length
  , maxParallel := mp
  , running := 0
  , tasks := []
  , now := 0 }

/-- A discovered, idle job named TestA. -/
def itemA : TestItem :=
  { defaultItem with info := { name := "TestA", pkg := "", file := "a_test.go", line := 3 } }

/-- A discovered, idle job named TestB. -/
def itemB : TestItem :=
  { defaultItem with info := { name := "TestB", pkg := "", file := "a_test.go", line := 8 } }

/-- Embedding of `SortMode` from the session model. -/
inductive SortMode where
  | byName
  | bySelection
  | byStatus
deriving DecidableEq, Repr

/-- Embedding of the session `Model` fields the claims touch: the job-record
heap (the Go pointers), the full list `m.tests` and the derived view
`m.filteredList` as id lists, the cursor, filter text, sort mode, and the
output/search state of the right pane. -/
structure Model where
  recs : List TestItem
  tests : List Nat
  filteredList : List Nat
  cursor : Nat
  filterText : String
  sortMode : SortMode
  outputLines : List String
  outputScroll : Nat
  autoScroll : Bool
  searchText : String
  searchMatches : List Nat
  currentMatchIdx : Int
deriving DecidableEq, Repr

/-- The list recomputation inside `applyFilter`: the full list when the text
is empty, otherwise the case-insensitive substring match over job names. -/
def applyFilterList (recs : List TestItem) (tests : List Nat) (ftext : String) : List Nat :=
  if ftext = "" then tests
  else tests.filter (fun id => containsCI (nameOf recs id) ftext)

/-- Embedding of `applyFilter` from the session model: recompute the
filtered view from the full list and clamp the cursor.  The Go clamp sets
`cursor = len-1` when out of range and then resets a negative cursor to 0;
over `Nat` the saturating subtraction produces the same values. -/
def applyFilterFn (m : Model) : Model :=
  let fl := applyFilterList m.recs m.tests m.filterText
  let c := if fl.length ≤ m.cursor then fl.length - 1 else m.cursor
  { m with filteredList := fl, cursor := c }

/-- The less-than comparator passed to `sort.Slice` in `applySorting`, per
sort mode (name ascending; selected first then name; status descending by
enum value then name). -/
def sortLess (recs : List TestItem) (mode : SortMode) (i j : Nat) : Bool :=
  match mode with
  | SortMode.byName => decide (nameOf recs i < nameOf recs j)
  | SortMode.bySelection =>
      let si := ((recs.get? i).getD defaultItem).selected
      let sj := ((recs.get? j).getD defaultItem).selected
      if si ≠ sj then si else decide (nameOf recs i < nameOf recs j)
  | SortMode.byStatus =>
      let si := ((recs.get? i).getD defaultItem).status
      let sj := ((recs.get? j).getD defaultItem).status
      if si ≠ sj then decide (sj.toNat < si.toNat)
      else decide (nameOf recs i < nameOf recs j)

/-- Insert into a sorted list according to a Bool comparator. -/
def insertSorted (le : Nat → Nat → Bool) (x : Nat) : List Nat → List Nat
  | [] => [x]
  | y :: ys => if le x y then x :: y :: ys else y :: insertSorted le x ys

/-- Insertion sort with a Bool comparator.  Embeds Go `sort.Slice`: the
claims proved here depend only on the result being a permutation ordered by
the comparator, which any `sort.Slice` run satisfies. -/
def insertionSort (le : Nat → Nat → Bool) : List Nat → List Nat
  | [] => []
  | x :: xs => insertSorted le x (insertionSort le xs)

/-- The cursor-restore scan at the end of `applySorting`: first index whose
element is the remembered item (Go pointer equality becomes id equality). -/
def findIndexOf : List Nat → Nat → Option Nat
  | [], _ => none
  | x :: xs, a => if x = a then some 0 else (findIndexOf xs a).map (· + 1)

/-- Embedding of `applySorting` from the session model: remember the item
under the cursor, sort the filtered view with the mode comparator, and
re-point the cursor at the remembered item. -/
def applySortingFn (m : Model) : Model :=
  let cur := m.filteredList.get? m.cursor
  let fl := insertionSort (sortLess m.recs m.sortMode) m.filteredList
  let c := match cur with
    | none => m.cursor
    | some it =>
      match findIndexOf fl it with
      | some i => i
      | none => m.cursor
  { m with filteredList := fl, cursor := c }

/-- Embedding of `moveItemUp` from the session model: swap the cursor item
with its predecessor in the filtered view and move the cursor with it;
no-op at the top or on an empty list. -/
def moveItemUpFn (m : Model) : Model :=
  if m.cursor = 0 || m.filteredList.length = 0 then m
  else
    match m.filteredList.get? m.cursor, m.filteredList.get? (m.cursor - 1) with
    | some a, some b =>
        { m with filteredList := (m.filteredList.set m.cursor b).set (m.cursor - 1) a
               , cursor := m.cursor - 1 }
    | _, _ => m

/-- Fresh job records built from a discovery result (`rediscoverTests` makes
every record Idle with its discovered info). -/
def freshItems (infos : List TestInfo) : List TestItem :=
  infos.map (fun ti => { defaultItem with info := ti })

/-- Embedding of `rediscoverTests` from the session model, with the
discovery call abstracted into an `Except` argument: on error return with
nothing changed; on success replace the job list and reapply the current
filter and sort. -/
def rediscoverFn (m : Model) (res : Except String (List TestInfo)) : Model :=
  match res with
  | Except.error _ => m
  | Except.ok infos =>
      let items := freshItems infos
      applySortingFn (applyFilterFn { m with recs := items, tests := List.range items.length })

/-- The scan loop of `performSearch`: indices (from a running offset) of the
lines matching the search text case-insensitively, in order. -/
def searchLines (text : String) : Nat → List String → List Nat
  | _, [] => []
  | i, l :: rest =>
    if containsCI l text then i :: searchLines text (i + 1) rest
    else searchLines text (i + 1) rest

/-- Embedding of `performSearch` from the session model: reset the matches
and the match cursor (to -1), then, unless the text is empty, collect the
indices of matching output lines. -/
def performSearchFn (m : Model) : Model :=
  { m with currentMatchIdx := -1
         , searchMatches := if m.searchText = "" then []
                            else searchLines m.searchText 0 m.outputLines }

/-- Embedding of `goToNextMatch`: advance the match cursor circularly, move
the scroll position to the match, and disable auto-scroll.  List indexing is
totalised with `getD`; the index is in range whenever the match list is
non-empty and the cursor is at least -1, which holds in every state the
session produces. -/
def goToNextMatchFn (m : Model) : Model :=
  if m.searchMatches.length = 0 then m
  else
    let idx := m.currentMatchIdx + 1
    let idx2 := if (m.searchMatches.length : Int) ≤ idx then 0 else idx
    { m with currentMatchIdx := idx2
           , outputScroll := m.searchMatches.getD idx2.toNat 0
           , autoScroll := false }

/-- Embedding of `goToPrevMatch`: step the match cursor backwards
circularly, move the scroll position to the match, and disable
auto-scroll. -/
def goToPrevMatchFn (m : Model) : Model :=
  if m.searchMatches.length = 0 then m
  else
    let idx := m.currentMatchIdx - 1
    let idx2 := if idx < 0 then (m.searchMatches.length : Int) - 1 else idx
    { m with currentMatchIdx := idx2
           , outputScroll := m.searchMatches.getD idx2.toNat 0
           , autoScroll := false }

/-- A session model with every field at its zero value (concrete states in
the theorems are built from it). -/
def emptyModel : Model :=
  { recs := []
  , tests := []
  , filteredList := []
  , cursor := 0
  , filterText := ""
  , sortMode := SortMode.byName
  , outputLines := []
  , outputScroll := 0
  , autoScroll := true
  , searchText := ""
  , searchMatches := []
  , currentMatchIdx := 0 }

/-- Fresh queued records and concrete states used by the claims below. -/
def itemC : TestItem :=
  { defaultItem with info := { name := "TestC", pkg := "", file := "a_test.go", line := 13 } }

/-- TestA already queued (queued at tick 0). -/
def qItemA : TestItem :=
  { itemA with status := TestStatus.queued, queuedAt := some 0, logFile := "TestA.0.log" }

/-- TestB already queued. -/
def qItemB : TestItem :=
  { itemB with status := TestStatus.queued, queuedAt := some 1, logFile := "TestB.1.log" }

/-- TestC already queued. -/
def qItemC : TestItem :=
  { itemC with status := TestStatus.queued, queuedAt := some 2, logFile := "TestC.2.log" }

/-- State reached from one idle job under ceiling 2 by a single Enqueue
followed by both spawned tasks passing their first lock section. -/
def c1Final : SchedState :=
  startStep (startStep (queueTest (initState [itemA] 2) 0) 0) 0

/-- State reached by: enqueue A, A starts, enqueue B, raise the ceiling to 2,
B starts, lower the ceiling back to 1. -/
def c2TraceFinal : SchedState :=
  setMaxParallelFn
    (startStep
      (setMaxParallelFn
        (queueTest (startStep (queueTest (initState [itemA, itemB] 1) 0) 0) 1) 2) 1) 1

/-- A scheduler state with one queued job and free capacity, about to run an
admission pass. -/
def c3State : SchedState :=
  { recs := [qItemA], view := [0], maxParallel := 1, running := 0, tasks := [], now := 1 }

/-- Jobs A, B, C all queued with the display order already changed to C
first (C moved above A), ceiling 1, before any admission. -/
def c3ReorderedState : SchedState :=
  { recs := [qItemA, qItemB, qItemC], view := [2, 0, 1]
  , maxParallel := 1, running := 0, tasks := [], now := 3 }

/-- A session view [A, B, C] with the cursor on C, about to be reordered. -/
def reorderDemo : Model :=
  { emptyModel with filteredList := [0, 1, 2], cursor := 2 }

/-- A queued job (queued at tick 7) about to be stopped. -/
def c4State : SchedState :=
  { recs := [{ itemA with status := TestStatus.queued, queuedAt := some 7, logFile := "TestA.7.log" }]
  , view := [0], maxParallel := 1, running := 0, tasks := [], now := 9 }

/-- State reached from one idle job under ceiling 1 by Enqueue, the task
passing its first lock section, and the log-file creation then failing. -/
def c6Final : SchedState :=
  logFailStep (startStep (queueTest (initState [itemA] 1) 0) 0) 0

/-- State with one execution task past its first lock section (used to
instantiate the completion-bookkeeping theorem). -/
def c5State : SchedState :=
  startStep (queueTest (initState [itemA] 1) 0) 0

/-- The output buffer and search text of the search example in the spec. -/
def demoModel : Model :=
  { emptyModel with outputLines := ["foo", "bar", "FOO", "baz"], searchText := "foo" }

/-- Two jobs TestAlpha (idle) and TestBeta (queued) with the filter text
alpha in effect: the scheduler view is the filtered list [0]. -/
def c7State : SchedState :=
  { recs := [ { defaultItem with info := { name := "TestAlpha", pkg := "", file := "", line := 1 } }
            , { defaultItem with info := { name := "TestBeta", pkg := "", file := "", line := 5 }
                               , status := TestStatus.queued, queuedAt := some 4 } ]
  , view := [0]
  , maxParallel := 2
  , running := 0
  , tasks := []
  , now := 6 }

/-- A session model with three discovered jobs, no filter, cursor on the
last entry (used to instantiate the filter/sort/cursor theorem). -/
def c9Model : Model :=
  { emptyModel with
      recs := [ { defaultItem with info := { name := "TestB", pkg := "", file := "", line := 1 } }
              , { defaultItem with info := { name := "TestA", pkg := "", file := "", line := 5 } }
              , { defaultItem with info := { name := "TestC", pkg := "", file := "", line := 9 } } ]
    , tests := [0, 1, 2]
    , filteredList := [0, 1, 2]
    , cursor := 2 }

theorem tryStartLoop_recs : ∀ (f : Nat) (s : SchedState), (tryStartLoop f s).recs = s.recs := by
  intro f
  induction f with
  | zero => intro s; rfl
  | succ f ih =>
      intro s
      unfold tryStartLoop
      split
      · split
        · exact ih _
        · rfl
      · rfl

theorem tryStartLoop_view : ∀ (f : Nat) (s : SchedState), (tryStartLoop f s).view = s.view := by
  intro f
  induction f with
  | zero => intro s; rfl
  | succ f ih =>
      intro s
      unfold tryStartLoop
      split
      · split
        · exact ih _
        · rfl
      · rfl

theorem tryStartLoop_max : ∀ (f : Nat) (s : SchedState),
    (tryStartLoop f s).maxParallel = s.maxParallel := by
  intro f
  induction f with
  | zero => intro s; rfl
  | succ f ih =>
      intro s
      unfold tryStartLoop
      split
      · split
        · exact ih _
        · rfl
      · rfl

theorem tryStartLoop_now : ∀ (f : Nat) (s : SchedState), (tryStartLoop f s).now = s.now := by
  intro f
  induction f with
  | zero => intro s; rfl
  | succ f ih =>
      intro s
      unfold tryStartLoop
      split
      · split
        · exact ih _
        · rfl
      · rfl

theorem tryStartLoop_running_mono : ∀ (f : Nat) (s : SchedState),
    s.running ≤ (tryStartLoop f s).running := by
  intro f
  induction f with
  | zero => intro s; exact Nat.le_refl _
  | succ f ih =>
      intro s
      unfold tryStartLoop
      split
      · split
        · next id heq =>
            have h2 : s.running + 1 ≤ (tryStartLoop f (spawn s id)).running := ih (spawn s id)
            exact Nat.le_trans (Nat.le_succ _) h2
        · exact Nat.le_refl _
      · exact Nat.le_refl _

theorem tryStartLoop_running_le : ∀ (f : Nat) (s : SchedState),
    s.running ≤ s.maxParallel → (tryStartLoop f s).running ≤ s.maxParallel := by
  intro f
  induction f with
  | zero => intro s h; exact h
  | succ f ih =>
      intro s h
      unfold tryStartLoop
      split
      · next hlt =>
          split
          · exact ih _ hlt
          · exact h
      · exact h

theorem tryStartLoop_tasks : ∀ (f : Nat) (s : SchedState),
    ∃ new, (tryStartLoop f s).tasks = s.tasks ++ new ∧
      ∀ t ∈ new, t.phase = Phase.launched ∧ t.id ∈ s.view ∧
        statusOf s t.id = TestStatus.queued := by
  intro f
  induction f with
  | zero => intro s; exact ⟨[], by simp [tryStartLoop], by simp⟩
  | succ f ih =>
      intro s
      unfold tryStartLoop
      split
      · split
        · next id heq =>
            have heq2 : List.find? (fun jd => decide (statusOf s jd = TestStatus.queued)) s.view
                = some id := heq
            obtain ⟨new, hnew, hprop⟩ := ih (spawn s id)
            refine ⟨ExecTask.mk id Phase.launched :: new, ?_, ?_⟩
            · rw [hnew]
              show (s.tasks ++ [ExecTask.mk id Phase.launched]) ++ new = _
              simp
            · intro t ht
              rcases List.mem_cons.mp ht with h1 | h2
              · subst h1
                have h3 := List.find?_some heq2
                refine ⟨rfl, List.mem_of_find?_eq_some heq2, ?_⟩
                show statusOf s id = TestStatus.queued
                exact of_decide_eq_true h3
              · exact hprop t h2
        · exact ⟨[], by simp, by simp⟩
      · exact ⟨[], by simp, by simp⟩

theorem tryStartNextFn_recs (s : SchedState) : (tryStartNextFn s).recs = s.recs :=
  tryStartLoop_recs _ s

theorem tryStartNextFn_view (s : SchedState) : (tryStartNextFn s).view = s.view :=
  tryStartLoop_view _ s

theorem tryStartNextFn_max (s : SchedState) : (tryStartNextFn s).maxParallel = s.maxParallel :=
  tryStartLoop_max _ s

theorem tryStartNextFn_now (s : SchedState) : (tryStartNextFn s).now = s.now :=
  tryStartLoop_now _ s

theorem tryStartNextFn_status (s : SchedState) (id : Nat) :
    statusOf (tryStartNextFn s) id = statusOf s id := by
  unfold statusOf recOf
  rw [tryStartNextFn_recs]

theorem tryStartNextFn_tasks (s : SchedState) :
    ∃ new, (tryStartNextFn s).tasks = s.tasks ++ new ∧
      ∀ t ∈ new, t.phase = Phase.launched ∧ t.id ∈ s.view ∧
        statusOf s t.id = TestStatus.queued :=
  tryStartLoop_tasks _ s

theorem tryStartNextFn_le (s : SchedState) (h : s.running ≤ s.maxParallel) :
    (tryStartNextFn s).running ≤ (tryStartNextFn s).maxParallel := by
  rw [tryStartNextFn_max]
  exact tryStartLoop_running_le _ s h

theorem tryStartNextFn_blocked (s : SchedState) (h : s.maxParallel ≤ s.running) :
    tryStartNextFn s = s := by
  unfold tryStartNextFn
  rw [Nat.sub_eq_zero_of_le h]
  rfl

theorem tryStartLoop_succ (f : Nat) (s : SchedState) :
    tryStartLoop (f + 1) s =
      if s.running < s.maxParallel then
        match firstQueued s with
        | some id => tryStartLoop f (spawn s id)
        | none => s
      else s := rfl

theorem tryStartNextFn_unfold (s : SchedState) (id : Nat)
    (h1 : s.running < s.maxParallel) (h2 : firstQueued s = some id) :
    tryStartNextFn s = tryStartLoop (s.maxParallel - s.running - 1) (spawn s id) := by
  unfold tryStartNextFn
  obtain ⟨f, hf⟩ : ∃ f, s.maxParallel - s.running = f + 1 :=
    ⟨s.maxParallel - s.running - 1, by omega⟩
  rw [hf, tryStartLoop_succ, if_pos h1, h2, Nat.add_sub_cancel]

theorem statusOf_some (s : SchedState) (id : Nat) (item : TestItem)
    (h : s.recs.get? id = some item) : statusOf s id = item.status := by
  unfold statusOf recOf
  rw [h]
  rfl

theorem get?_some_of_status_queued (s : SchedState) (id : Nat)
    (h : statusOf s id = TestStatus.queued) :
    ∃ item, s.recs.get? id = some item ∧ item.status = TestStatus.queued := by
  cases hh : s.recs.get? id with
  | none =>
      exfalso
      unfold statusOf recOf at h
      rw [hh] at h
      exact absurd h (by decide)
  | some item =>
      exact ⟨item, rfl, by rw [statusOf_some s id item hh] at h; exact h⟩

theorem queueTest_ceiling (s : SchedState) (id : Nat)
    (hinv : s.running ≤ s.maxParallel) :
    (queueTest s id).running ≤ (queueTest s id).maxParallel := by
  unfold queueTest
  split
  · exact hinv
  · split
    · exact hinv
    · exact tryStartNextFn_le _ hinv

theorem stopTest_fields (s : SchedState) (id : Nat) :
    (stopTest s id).running = s.running ∧
    (stopTest s id).maxParallel = s.maxParallel ∧
    (stopTest s id).tasks = s.tasks ∧
    (stopTest s id).view = s.view := by
  unfold stopTest
  split
  · exact ⟨rfl, rfl, rfl, rfl⟩
  · split <;> exact ⟨rfl, rfl, rfl, rfl⟩

theorem startStep_fields (s : SchedState) (id : Nat) :
    (startStep s id).running = s.running ∧
    (startStep s id).maxParallel = s.maxParallel := by
  unfold startStep
  split <;> exact ⟨rfl, rfl⟩

theorem logFailStep_ceiling (s : SchedState) (id : Nat)
    (hinv : s.running ≤ s.maxParallel) :
    (logFailStep s id).running ≤ (logFailStep s id).maxParallel := by
  unfold logFailStep
  split <;> exact tryStartNextFn_le _ (Nat.le_trans (Nat.sub_le _ 1) hinv)

theorem finishStep_ceiling (s : SchedState) (id : Nat) (c e : Bool)
    (hinv : s.running ≤ s.maxParallel) :
    (finishStep s id c e).running ≤ (finishStep s id c e).maxParallel := by
  unfold finishStep
  split <;> exact tryStartNextFn_le _ (Nat.le_trans (Nat.sub_le _ 1) hinv)

/-- C1: the claim asserts that every admission pass of tryStartNext admits
distinct jobs and no job ever has two execution tasks in flight.  The code
violates this: QueueTest is indeed a no-op while Queued or Running, but
tryStartNext does not mark the admitted job Running (the spawned goroutine
does that later), so one admission pass under ceiling 2 re-scans, still
sees the job Queued, and launches a second execution task for the same
job.  This theorem evaluates the code at the failing input: from one idle
job and maxParallel 2, a single Enqueue launches two tasks for job 0, and
the state in which both have started running is reachable. -/
theorem c1_single_enqueue_double_admission :
    (queueTest (initState [itemA] 2) 0).tasks
      = [ExecTask.mk 0 Phase.launched, ExecTask.mk 0 Phase.launched] ∧
    c1Final.tasks = [ExecTask.mk 0 Phase.started, ExecTask.mk 0 Phase.started] ∧
    statusOf c1Final 0 = TestStatus.running ∧
    Reaches (initState [itemA] 2) c1Final := by
  refine ⟨by decide, by decide, by decide, ?_⟩
  have h1 : Relation.ReflTransGen (fun x y => ∃ l, Step x l y)
      (initState [itemA] 2) (queueTest (initState [itemA] 2) 0) :=
    Relation.ReflTransGen.single ⟨SLabel.enqueue 0, Step.enqueue _ 0⟩
  have h2 := Relation.ReflTransGen.tail h1
    ⟨SLabel.taskStart 0, Step.taskStart _ 0 (by decide)⟩
  exact Relation.ReflTransGen.tail h2
    ⟨SLabel.taskStart 0, Step.taskStart _ 0 (by decide)⟩

/-- C2 counterexample: the claim asserts running ≤ maxParallel in every
reachable state even though SetMaxParallel may lower the ceiling.  The
trace enqueue A, start A, enqueue B, raise ceiling to 2, start B, lower
ceiling to 1 reaches a state with 2 running jobs and ceiling 1. -/
theorem c2_lowering_breaks_ceiling :
    Reaches (initState [itemA, itemB] 1) c2TraceFinal ∧
    c2TraceFinal.running = 2 ∧
    c2TraceFinal.maxParallel = 1 ∧
    ¬(c2TraceFinal.running ≤ c2TraceFinal.maxParallel) := by
  refine ⟨?_, by decide, by decide, by decide⟩
  have h1 : Relation.ReflTransGen (fun x y => ∃ l, Step x l y)
      (initState [itemA, itemB] 1) (queueTest (initState [itemA, itemB] 1) 0) :=
    Relation.ReflTransGen.single ⟨SLabel.enqueue 0, Step.enqueue _ 0⟩
  have h2 := Relation.ReflTransGen.tail h1
    ⟨SLabel.taskStart 0, Step.taskStart _ 0 (by decide)⟩
  have h3 := Relation.ReflTransGen.tail h2 ⟨SLabel.enqueue 1, Step.enqueue _ 1⟩
  have h4 := Relation.ReflTransGen.tail h3 ⟨SLabel.setMax 2, Step.setMax _ 2 (by decide)⟩
  have h5 := Relation.ReflTransGen.tail h4
    ⟨SLabel.taskStart 1, Step.taskStart _ 1 (by decide)⟩
  exact Relation.ReflTransGen.tail h5 ⟨SLabel.setMax 1, Step.setMax _ 1 (by decide)⟩

/-- C2 amended: running ≤ maxParallel is preserved by every scheduler
transition except a SetMaxParallel that lowers the ceiling below the
current running count, and while the running count is at or above the
ceiling an admission pass starts nothing. -/
theorem c2_ceiling_invariant_preserved (s t : SchedState) (l : SLabel)
    (hstep : Step s l t) (hinv : s.running ≤ s.maxParallel)
    (hlow : ∀ n, l = SLabel.setMax n → s.running ≤ n) :
    t.running ≤ t.maxParallel ∧
    ∀ u : SchedState, u.maxParallel ≤ u.running → tryStartNextFn u = u := by
  refine ⟨?_, fun u hu => tryStartNextFn_blocked u hu⟩
  cases hstep with
  | enqueue id => exact queueTest_ceiling s id hinv
  | stop id =>
      obtain ⟨h1, h2, -, -⟩ := stopTest_fields s id
      rw [h1, h2]
      exact hinv
  | setMax n h => exact tryStartNextFn_le _ (hlow n rfl)
  | taskStart id h =>
      obtain ⟨h1, h2⟩ := startStep_fields s id
      rw [h1, h2]
      exact hinv
  | taskLogFail id h => exact logFailStep_ceiling s id hinv
  | taskFinish id c e h => exact finishStep_ceiling s id c e hinv
  | setView v => exact hinv

/-- Witness for the amended C2 theorem at a concrete transition. -/
theorem c2_ceiling_invariant_preserved_witness :
    (initState [itemA] 1).running ≤ (initState [itemA] 1).maxParallel ∧
    (queueTest (initState [itemA] 1) 0).running
      ≤ (queueTest (initState [itemA] 1) 0).maxParallel := by
  refine ⟨by decide, ?_⟩
  have h := c2_ceiling_invariant_preserved (initState [itemA] 1)
    (queueTest (initState [itemA] 1) 0) (SLabel.enqueue 0)
    (Step.enqueue _ 0) (by decide)
    (fun n hn => by cases hn)
  exact h.1

/-- C6: the claim asserts the cancellation handle is non-null exactly while
the status is Running, including on the path where log-file creation
fails.  The code violates this on that path: runTest returns without
clearing the handle, so a state is reachable in which the job is Failed
and the handle is still installed. -/
theorem c6_cancel_handle_leak :
    Reaches (initState [itemA] 1) c6Final ∧
    statusOf c6Final 0 = TestStatus.failed ∧
    (recOf c6Final 0).cancel = true ∧
    ¬(((recOf c6Final 0).cancel = true) ↔ statusOf c6Final 0 = TestStatus.running) := by
  refine ⟨?_, by decide, by decide, by decide⟩
  have h1 : Relation.ReflTransGen (fun x y => ∃ l, Step x l y)
      (initState [itemA] 1) (queueTest (initState [itemA] 1) 0) :=
    Relation.ReflTransGen.single ⟨SLabel.enqueue 0, Step.enqueue _ 0⟩
  have h2 := Relation.ReflTransGen.tail h1
    ⟨SLabel.taskStart 0, Step.taskStart _ 0 (by decide)⟩
  exact Relation.ReflTransGen.tail h2
    ⟨SLabel.taskLogFail 0, Step.taskLogFail _ 0 (by decide)⟩

theorem listGetSetSelf {α : Type} :
    ∀ (l : List α) (i : Nat) (a : α), i < l.length → (l.set i a).get? i = some a := by
  intro l
  induction l with
  | nil => intro i a h; exact absurd h (by simp)
  | cons x xs ih =>
      intro i a h
      cases i with
      | zero => rfl
      | succ n => exact ih n a (Nat.lt_of_succ_lt_succ h)

theorem listGetSetNe {α : Type} :
    ∀ (l : List α) (i j : Nat) (a : α), i ≠ j → (l.set i a).get? j = l.get? j := by
  intro l
  induction l with
  | nil => intro i j a h; cases i <;> rfl
  | cons x xs ih =>
      intro i j a h
      cases i with
      | zero =>
          cases j with
          | zero => exact absurd rfl h
          | succ m => rfl
      | succ n =>
          cases j with
          | zero => rfl
          | succ m => exact ih n m a (fun hh => h (by rw [hh]))

/-- C3 counterexample: the claim says tryStartNext itself marks the admitted
job Running with startedAt stamped.  At a state with one queued job and
free capacity, the admission pass increments the running count and
launches the execution task, but the job is still Queued with no
startedAt after the pass returns. -/
theorem c3_admission_does_not_mark_running :
    c3State.running < c3State.maxParallel ∧
    firstQueued c3State = some 0 ∧
    (tryStartNextFn c3State).running = 1 ∧
    (tryStartNextFn c3State).tasks = [ExecTask.mk 0 Phase.launched] ∧
    statusOf (tryStartNextFn c3State) 0 = TestStatus.queued ∧
    ¬(statusOf (tryStartNextFn c3State) 0 = TestStatus.running) ∧
    (recOf (tryStartNextFn c3State) 0).startedAt = none := by
  decide

/-- C3 amended: when tryStartNext runs with capacity and a queued job
exists, it launches the execution task of the first Queued job in the
current display order and increments the running count, leaving every
record unchanged; the launched task, not the admission pass, then marks
the job Running and stamps startedAt.  Reordering the list before
admission therefore decides who runs first: with jobs A, B, C queued,
moving C above A (two moveItemUp presses, giving display order C, A, B)
and admitting under ceiling 1 launches the task for C. -/
theorem c3_admission_order_and_reorder (s : SchedState) (id : Nat)
    (h1 : s.running < s.maxParallel) (h2 : firstQueued s = some id) :
    (∃ rest, (tryStartNextFn s).tasks = s.tasks ++ ExecTask.mk id Phase.launched :: rest) ∧
    (tryStartNextFn s).recs = s.recs ∧
    s.running < (tryStartNextFn s).running ∧
    statusOf (tryStartNextFn s) id = TestStatus.queued ∧
    statusOf (startStep (tryStartNextFn s) id) id = TestStatus.running ∧
    (recOf (startStep (tryStartNextFn s) id) id).startedAt = some s.now ∧
    (moveItemUpFn (moveItemUpFn reorderDemo)).filteredList = [2, 0, 1] ∧
    (tryStartNextFn c3ReorderedState).tasks = [ExecTask.mk 2 Phase.launched] := by
  have hunf := tryStartNextFn_unfold s id h1 h2
  have heq2 : List.find? (fun jd => decide (statusOf s jd = TestStatus.queued)) s.view
      = some id := h2
  have hqueued : statusOf s id = TestStatus.queued := by
    have h3 := List.find?_some heq2
    exact of_decide_eq_true h3
  have hstat : statusOf (tryStartNextFn s) id = TestStatus.queued := by
    rw [tryStartNextFn_status]
    exact hqueued
  obtain ⟨item, hget, hst⟩ := get?_some_of_status_queued (tryStartNextFn s) id hstat
  have hlt : id < (tryStartNextFn s).recs.length := by
    rcases List.get?_eq_some.mp hget with ⟨hl, -⟩
    exact hl
  refine ⟨?_, tryStartNextFn_recs s, ?_, hstat, ?_, ?_, by decide, by decide⟩
  · rw [hunf]
    obtain ⟨new, hnew, -⟩ := tryStartLoop_tasks (s.maxParallel - s.running - 1) (spawn s id)
    refine ⟨new, ?_⟩
    rw [hnew]
    show (s.tasks ++ [ExecTask.mk id Phase.launched]) ++ new = _
    simp
  · rw [hunf]
    have hm : s.running + 1
        ≤ (tryStartLoop (s.maxParallel - s.running - 1) (spawn s id)).running :=
      tryStartLoop_running_mono _ (spawn s id)
    omega
  · unfold startStep
    simp only [hget]
    unfold statusOf recOf
    rw [listGetSetSelf _ _ _ hlt]
    rfl
  · unfold startStep
    simp only [hget]
    unfold recOf
    rw [listGetSetSelf _ _ _ hlt]
    show some ((tryStartNextFn s).now) = some s.now
    rw [tryStartNextFn_now]

/-- Witness for the amended C3 theorem: at the reordered state (C first,
all three jobs queued, ceiling 1) the admission pass launches the task
for C and that task then marks C Running. -/
theorem c3_admission_order_and_reorder_witness :
    c3ReorderedState.running < c3ReorderedState.maxParallel ∧
    firstQueued c3ReorderedState = some 2 ∧
    statusOf (startStep (tryStartNextFn c3ReorderedState) 2) 2 = TestStatus.running :=
  ⟨by decide, by decide,
    (c3_admission_order_and_reorder c3ReorderedState 2 (by decide) (by decide)).2.2.2.2.1⟩

/-- C4 counterexample: the claim says Stop on a Queued job returns it to
Idle with the queued timestamp cleared.  At a concrete queued job the
status does revert to Idle, but the queued timestamp (and the log-file
name) keep their old values. -/
theorem c4_stop_does_not_clear_queuedAt :
    statusOf (stopTest c4State 0) 0 = TestStatus.idle ∧
    (recOf (stopTest c4State 0) 0).queuedAt = some 7 ∧
    ¬((recOf (stopTest c4State 0) 0).queuedAt = none) ∧
    (recOf (stopTest c4State 0) 0).logFile = "TestA.7.log" := by
  decide

/-- C4 amended: Stop on a Queued job resets only the status to Idle (the
queued timestamp field is left unchanged, though no longer interpreted
once Idle), touches neither the running counter nor the task bag, and the
job is excluded from admission passes until re-enqueued, because the
admission scan launches tasks only for jobs whose status is Queued. -/
theorem c4_stop_queued_reverts_and_excludes (s : SchedState) (id : Nat)
    (h : statusOf s id = TestStatus.queued) :
    statusOf (stopTest s id) id = TestStatus.idle ∧
    (recOf (stopTest s id) id).queuedAt = (recOf s id).queuedAt ∧
    (stopTest s id).running = s.running ∧
    (stopTest s id).tasks = s.tasks ∧
    ∀ t ∈ (tryStartNextFn (stopTest s id)).tasks, t ∈ s.tasks ∨ t.id ≠ id := by
  obtain ⟨item, hget, hst⟩ := get?_some_of_status_queued s id h
  have hlt : id < s.recs.length := by
    rcases List.get?_eq_some.mp hget with ⟨hl, -⟩
    exact hl
  have hstop : stopTest s id =
      { s with recs := s.recs.set id { item with status := TestStatus.idle } } := by
    unfold stopTest
    simp only [hget, hst]
  have hidle : statusOf (stopTest s id) id = TestStatus.idle := by
    rw [hstop]
    unfold statusOf recOf
    show (((s.recs.set id { item with status := TestStatus.idle }).get? id).getD
        defaultItem).status = TestStatus.idle
    rw [listGetSetSelf _ _ _ hlt]
    rfl
  refine ⟨hidle, ?_, by rw [hstop], by rw [hstop], ?_⟩
  · rw [hstop]
    unfold recOf
    show (((s.recs.set id { item with status := TestStatus.idle }).get? id).getD
        defaultItem).queuedAt = ((s.recs.get? id).getD defaultItem).queuedAt
    rw [listGetSetSelf _ _ _ hlt, hget]
    rfl
  · intro t ht
    obtain ⟨new, hnew, hprop⟩ := tryStartNextFn_tasks (stopTest s id)
    rw [hnew] at ht
    rcases List.mem_append.mp ht with hin | hin
    · left
      rw [hstop] at hin
      exact hin
    · right
      intro htid
      obtain ⟨-, -, hq⟩ := hprop t hin
      rw [htid] at hq
      rw [hidle] at hq
      exact absurd hq (by decide)

/-- Witness for the amended C4 theorem at a concrete queued job. -/
theorem c4_stop_queued_reverts_and_excludes_witness :
    statusOf c4State 0 = TestStatus.queued ∧
    statusOf (stopTest c4State 0) 0 = TestStatus.idle ∧
    (recOf (stopTest c4State 0) 0).queuedAt = (recOf c4State 0).queuedAt :=
  ⟨by decide, (c4_stop_queued_reverts_and_excludes c4State 0 (by decide)).1,
    (c4_stop_queued_reverts_and_excludes c4State 0 (by decide)).2.1⟩

/-- C5: completion bookkeeping of the execution task.  The completion
section sets the terminal status to Failed exactly when the run was
cancelled or the backend reported an error and Passed otherwise, stamps
finishedAt, clears the cancellation handle, and returns through
testFinished, i.e. the post-state is an admission pass applied to a state
whose running count is one lower; on the log-creation failure path the
job goes to Failed with finishedAt stamped (so it never stays Running)
and the same decrement-and-readmit shape holds. -/
theorem c5_completion_bookkeeping (s : SchedState) (id : Nat) (c e : Bool)
    (htask : ExecTask.mk id Phase.started ∈ s.tasks) (hid : id < s.recs.length) :
    (∃ mid : SchedState, finishStep s id c e = tryStartNextFn mid ∧
        mid.running = s.running - 1 ∧
        statusOf mid id = (if c || e then TestStatus.failed else TestStatus.passed) ∧
        (recOf mid id).finishedAt = some s.now ∧
        (recOf mid id).cancel = false) ∧
    (∃ mid2 : SchedState, logFailStep s id = tryStartNextFn mid2 ∧
        mid2.running = s.running - 1 ∧
        statusOf mid2 id = TestStatus.failed ∧
        (recOf mid2 id).finishedAt = some s.now ∧
        ¬(statusOf mid2 id = TestStatus.running)) := by
  cases hget : s.recs.get? id with
  | none =>
      exfalso
      have := List.get?_eq_none.mp hget
      omega
  | some item =>
      constructor
      · refine ⟨{ recs := s.recs.set id
                    { item with finishedAt := some s.now
                              , status := if c || e then TestStatus.failed
                                          else TestStatus.passed
                              , cancel := false }
                , view := s.view
                , maxParallel := s.maxParallel
                , running := s.running - 1
                , tasks := s.tasks.erase (ExecTask.mk id Phase.started)
                , now := s.now + 1 }, ?_, rfl, ?_, ?_, ?_⟩
        · unfold finishStep testFinishedFn
          simp only [hget]
        · unfold statusOf recOf
          rw [listGetSetSelf _ _ _ hid]
          rfl
        · unfold recOf
          rw [listGetSetSelf _ _ _ hid]
          rfl
        · unfold recOf
          rw [listGetSetSelf _ _ _ hid]
          rfl
      · refine ⟨{ recs := s.recs.set id
                    { item with status := TestStatus.failed
                              , finishedAt := some s.now }
                , view := s.view
                , maxParallel := s.maxParallel
                , running := s.running - 1
                , tasks := s.tasks.erase (ExecTask.mk id Phase.started)
                , now := s.now + 1 }, ?_, rfl, ?_, ?_, ?_⟩
        · unfold logFailStep testFinishedFn
          simp only [hget]
        · unfold statusOf recOf
          rw [listGetSetSelf _ _ _ hid]
          rfl
        · unfold recOf
          rw [listGetSetSelf _ _ _ hid]
          rfl
        · unfold statusOf recOf
          rw [listGetSetSelf _ _ _ hid]
          show ¬TestStatus.failed = TestStatus.running
          decide

/-- Witness for the completion-bookkeeping theorem: a state with one
started task for job 0, completed with the cancelled flag set. -/
theorem c5_completion_bookkeeping_witness :
    (ExecTask.mk 0 Phase.started ∈ c5State.tasks) ∧
    0 < c5State.recs.length ∧
    (∃ mid : SchedState, finishStep c5State 0 true false = tryStartNextFn mid ∧
        mid.running = c5State.running - 1 ∧
        statusOf mid 0 = (if true || false then TestStatus.failed else TestStatus.passed) ∧
        (recOf mid 0).finishedAt = some c5State.now ∧
        (recOf mid 0).cancel = false) :=
  ⟨by decide, by decide,
    (c5_completion_bookkeeping c5State 0 true false (by decide) (by decide)).1⟩

theorem containsSub_nil (l : List Char) : containsSub l [] = true := by
  cases l with
  | nil => rfl
  | cons a rest => rfl

theorem containsCI_empty_needle (hay : String) : containsCI hay "" = true := by
  unfold containsCI
  have h : lowerOf "" = [] := rfl
  rw [h]
  exact containsSub_nil _

/-- C7: the scheduler's shared list is the session filteredList, so a
Queued job whose name does not match the active filter is not in the
shared view, is never launched by an admission pass, and its status does
not influence the queued count for as long as the filter is in effect. -/
theorem c7_filtered_view_scopes_scheduler (s : SchedState) (tests : List Nat)
    (ftext : String) (id : Nat) (st : TestStatus)
    (hview : s.view = applyFilterList s.recs tests ftext)
    (hnomatch : containsCI (nameOf s.recs id) ftext = false) :
    id ∉ s.view ∧
    (∀ t ∈ (tryStartNextFn s).tasks, t ∈ s.tasks ∨ t.id ≠ id) ∧
    getQueuedCountFn (setStatusFn s id st) = getQueuedCountFn s := by
  have hnotin : id ∉ s.view := by
    rw [hview]
    unfold applyFilterList
    by_cases hf : ftext = ""
    · subst hf
      rw [containsCI_empty_needle (nameOf s.recs id)] at hnomatch
      cases hnomatch
    · rw [if_neg hf]
      intro hmem
      have hm2 := List.mem_filter.mp hmem
      rw [hnomatch] at hm2
      exact Bool.noConfusion hm2.2
  refine ⟨hnotin, ?_, ?_⟩
  · intro t ht
    obtain ⟨new, hnew, hprop⟩ := tryStartNextFn_tasks s
    rw [hnew] at ht
    rcases List.mem_append.mp ht with hin | hin
    · exact Or.inl hin
    · right
      intro htid
      obtain ⟨-, hmem, -⟩ := hprop t hin
      rw [htid] at hmem
      exact hnotin hmem
  · unfold getQueuedCountFn
    have hv : (setStatusFn s id st).view = s.view := rfl
    rw [hv]
    have hcong : ∀ jd ∈ s.view,
        (decide (statusOf (setStatusFn s id st) jd = TestStatus.queued))
          = (decide (statusOf s jd = TestStatus.queued)) := by
      intro jd hjd
      have hne : id ≠ jd := by
        intro hh
        rw [hh] at hnotin
        exact hnotin hjd
      have hstat : statusOf (setStatusFn s id st) jd = statusOf s jd := by
        unfold setStatusFn statusOf recOf
        rw [listGetSetNe _ _ _ _ hne]
      rw [hstat]
    rw [List.filter_congr hcong]

/-- Witness for C7: the heap holds TestAlpha and TestBeta, the filter text
is alpha, and the queued job TestBeta (id 1) is outside the filtered
view. -/
theorem c7_filtered_view_scopes_scheduler_witness :
    (c7State.view = applyFilterList c7State.recs [0, 1] "alpha") ∧
    containsCI (nameOf c7State.recs 1) "alpha" = false ∧
    (1 ∉ c7State.view ∧
      (∀ t ∈ (tryStartNextFn c7State).tasks, t ∈ c7State.tasks ∨ t.id ≠ 1) ∧
      getQueuedCountFn (setStatusFn c7State 1 TestStatus.queued)
        = getQueuedCountFn c7State) :=
  ⟨by decide, by decide,
    c7_filtered_view_scopes_scheduler c7State [0, 1] "alpha" 1 TestStatus.queued
      (by decide) (by decide)⟩

theorem freshItems_all_idle :
    ∀ infos : List TestInfo,
      ((freshItems infos).all fun r => r.status == TestStatus.idle) = true := by
  intro infos
  induction infos with
  | nil => rfl
  | cons ti rest ih =>
      show (({ defaultItem with info := ti } : TestItem).status == TestStatus.idle
        && (freshItems rest).all fun r => r.status == TestStatus.idle) = true
      rw [ih]
      rfl

/-- C8: re-discovery is all-or-nothing.  On a discovery error the session
model is returned unchanged (job list, filtered view, cursor, everything);
only on success is the heap replaced by fresh Idle records for the
discovered tests, with the current filter and sort reapplied to build the
new filtered view. -/
theorem c8_rediscover_all_or_nothing (m : Model) (e : String) (infos : List TestInfo) :
    rediscoverFn m (Except.error e) = m ∧
    (rediscoverFn m (Except.ok infos)).recs = freshItems infos ∧
    ((rediscoverFn m (Except.ok infos)).recs.all fun r => r.status == TestStatus.idle) = true ∧
    (rediscoverFn m (Except.ok infos)).tests = List.range (freshItems infos).length ∧
    (rediscoverFn m (Except.ok infos)).filteredList =
      insertionSort (sortLess (freshItems infos) m.sortMode)
        (applyFilterList (freshItems infos) (List.range (freshItems infos).length)
          m.filterText) ∧
    (rediscoverFn m (Except.ok infos)).filterText = m.filterText ∧
    (rediscoverFn m (Except.ok infos)).sortMode = m.sortMode := by
  refine ⟨rfl, rfl, ?_, rfl, rfl, rfl, rfl⟩
  exact freshItems_all_idle infos

theorem insertSorted_perm (le : Nat → Nat → Bool) (x : Nat) :
    ∀ l : List Nat, List.Perm (insertSorted le x l) (x :: l) := by
  intro l
  induction l with
  | nil => exact List.Perm.refl _
  | cons y ys ih =>
      unfold insertSorted
      split
      · exact List.Perm.refl _
      · exact List.Perm.trans (List.Perm.cons y ih) (List.Perm.swap x y ys)

theorem insertionSort_perm (le : Nat → Nat → Bool) :
    ∀ l : List Nat, List.Perm (insertionSort le l) l := by
  intro l
  induction l with
  | nil => exact List.Perm.refl _
  | cons x xs ih =>
      unfold insertionSort
      exact List.Perm.trans (insertSorted_perm le x (insertionSort le xs))
        (List.Perm.cons x ih)

theorem findIndexOf_spec : ∀ (l : List Nat) (a : Nat), a ∈ l →
    ∃ i, findIndexOf l a = some i ∧ l.get? i = some a := by
  intro l
  induction l with
  | nil => intro a ha; cases ha
  | cons x xs ih =>
      intro a ha
      by_cases hx : x = a
      · exact ⟨0, by simp [findIndexOf, hx], by simp [hx]⟩
      · have hmem : a ∈ xs := by
          rcases List.mem_cons.mp ha with h1 | h2
          · exact absurd h1.symm hx
          · exact h2
        obtain ⟨i, h1, h2⟩ := ih a hmem
        refine ⟨i + 1, ?_, ?_⟩
        · simp [findIndexOf, hx, h1]
        · exact h2

theorem clampLt (L : List Nat) (c : Nat) (h : L ≠ []) :
    (if L.length ≤ c then L.length - 1 else c) < L.length := by
  have hlen : 0 < L.length := List.length_pos.mpr h
  split
  · omega
  · next hnot => omega

/-- C9: the filter recomputation contains exactly the jobs whose name
matches the filter text case-insensitively (all of them when the text is
empty), the clamped cursor is in bounds whenever the filtered view is
non-empty, and a sort keeps the view a permutation of itself with the
cursor re-pointed at the same logical job it was on before the sort. -/
theorem c9_filter_sort_cursor (m : Model) (id : Nat)
    (hc : m.cursor < m.filteredList.length) :
    (id ∈ (applyFilterFn m).filteredList ↔
      (id ∈ m.tests ∧ containsCI (nameOf m.recs id) m.filterText = true)) ∧
    ((applyFilterFn m).filteredList ≠ [] →
      (applyFilterFn m).cursor < (applyFilterFn m).filteredList.length) ∧
    List.Perm (applySortingFn m).filteredList m.filteredList ∧
    (applySortingFn m).filteredList.get? (applySortingFn m).cursor
      = m.filteredList.get? m.cursor := by
  refine ⟨?_, ?_, insertionSort_perm _ _, ?_⟩
  · show id ∈ applyFilterList m.recs m.tests m.filterText ↔ _
    unfold applyFilterList
    by_cases hf : m.filterText = ""
    · rw [if_pos hf]
      constructor
      · intro hmem
        refine ⟨hmem, ?_⟩
        rw [hf]
        exact containsCI_empty_needle _
      · intro hmem
        exact hmem.1
    · rw [if_neg hf]
      exact List.mem_filter
  · intro hne
    exact clampLt _ m.cursor hne
  · have hcur : m.filteredList.get? m.cursor
        = some (m.filteredList.get ⟨m.cursor, hc⟩) := List.get?_eq_get hc
    have hmem : m.filteredList.get ⟨m.cursor, hc⟩ ∈ m.filteredList :=
      List.get_mem _ _ _
    have hmemSorted : m.filteredList.get ⟨m.cursor, hc⟩
        ∈ insertionSort (sortLess m.recs m.sortMode) m.filteredList :=
      (insertionSort_perm _ _).mem_iff.mpr hmem
    obtain ⟨i, hfind, hget⟩ :=
      findIndexOf_spec _ (m.filteredList.get ⟨m.cursor, hc⟩) hmemSorted
    have happ : applySortingFn m =
        { m with filteredList := insertionSort (sortLess m.recs m.sortMode) m.filteredList
               , cursor := i } := by
      unfold applySortingFn
      simp only [hcur, hfind]
    rw [happ, hget, hcur]

/-- Witness for C9 at a concrete session model: cursor in bounds; after a
sort the cursor still points at the same logical job (TestC keeps the
cursor even though sorting by name moves it). -/
theorem c9_filter_sort_cursor_witness :
    c9Model.cursor < c9Model.filteredList.length ∧
    (applySortingFn c9Model).filteredList.get? (applySortingFn c9Model).cursor
      = c9Model.filteredList.get? c9Model.cursor :=
  ⟨by decide, (c9_filter_sort_cursor c9Model 0 (by decide)).2.2.2⟩

theorem searchLines_lb (text : String) :
    ∀ (lines : List String) (k : Nat), ∀ i ∈ searchLines text k lines, k ≤ i := by
  intro lines
  induction lines with
  | nil => intro k i hi; cases hi
  | cons l ls ih =>
      intro k i hi
      unfold searchLines at hi
      by_cases hcont : containsCI l text = true
      · rw [if_pos hcont] at hi
        rcases List.mem_cons.mp hi with h1 | h2
        · omega
        · have := ih (k + 1) i h2
          omega
      · rw [if_neg hcont] at hi
        have := ih (k + 1) i hi
        omega

theorem searchLines_mem_of (text : String) :
    ∀ (lines : List String) (k j : Nat) (line : String),
      lines.get? j = some line → containsCI line text = true →
      (k + j) ∈ searchLines text k lines := by
  intro lines
  induction lines with
  | nil => intro k j line hget hcont; exact absurd hget (by simp)
  | cons l ls ih =>
      intro k j line hget hcont
      cases j with
      | zero =>
          have hl : l = line := Option.some.inj hget
          unfold searchLines
          rw [hl, if_pos hcont]
          simp
      | succ jj =>
          have hget2 : ls.get? jj = some line := hget
          have hrec := ih (k + 1) jj line hget2 hcont
          have harith : k + (jj + 1) = (k + 1) + jj := by omega
          unfold searchLines
          by_cases hcont2 : containsCI l text = true
          · rw [if_pos hcont2, harith]
            exact List.mem_cons_of_mem _ hrec
          · rw [if_neg hcont2, harith]
            exact hrec

theorem searchLines_spec (text : String) :
    ∀ (lines : List String) (k : Nat), ∀ i ∈ searchLines text k lines,
      k ≤ i ∧ ∃ line, lines.get? (i - k) = some line ∧ containsCI line text = true := by
  intro lines
  induction lines with
  | nil => intro k i hi; cases hi
  | cons l ls ih =>
      intro k i hi
      unfold searchLines at hi
      by_cases hcont : containsCI l text = true
      · rw [if_pos hcont] at hi
        rcases List.mem_cons.mp hi with h1 | h2
        · subst h1
          refine ⟨Nat.le_refl _, l, ?_, hcont⟩
          rw [Nat.sub_self]
          rfl
        · obtain ⟨hk, line, hget, hc2⟩ := ih (k + 1) i h2
          refine ⟨by omega, line, ?_, hc2⟩
          have harith : i - k = (i - (k + 1)) + 1 := by omega
          rw [harith]
          exact hget
      · rw [if_neg hcont] at hi
        obtain ⟨hk, line, hget, hc2⟩ := ih (k + 1) i hi
        refine ⟨by omega, line, ?_, hc2⟩
        have harith : i - k = (i - (k + 1)) + 1 := by omega
        rw [harith]
        exact hget

theorem searchLines_pairwise (text : String) :
    ∀ (lines : List String) (k : Nat),
      List.Pairwise (fun a b => a < b) (searchLines text k lines) := by
  intro lines
  induction lines with
  | nil => intro k; exact List.Pairwise.nil
  | cons l ls ih =>
      intro k
      unfold searchLines
      by_cases hcont : containsCI l text = true
      · rw [if_pos hcont]
        refine List.Pairwise.cons ?_ (ih (k + 1))
        intro y hy
        have := searchLines_lb text ls (k + 1) y hy
        omega
      · rw [if_neg hcont]
        exact ih (k + 1)

/-- C10: performSearch computes exactly the ordered list of indices of
output lines containing the search text case-insensitively; on the
buffer foo, bar, FOO, baz with text foo the matches are [0, 2], next
cycles 0 then 2 then 0 (moving the scroll to the match and disabling
auto-scroll), and previous steps backwards through the same cycle. -/
theorem c10_search_matches_and_cycling (m : Model) (i : Nat) :
    (i ∈ (performSearchFn m).searchMatches ↔
      (¬(m.searchText = "") ∧ ∃ line, m.outputLines.get? i = some line ∧
        containsCI line m.searchText = true)) ∧
    List.Pairwise (fun a b => a < b) (performSearchFn m).searchMatches ∧
    (performSearchFn demoModel).searchMatches = [0, 2] ∧
    (goToNextMatchFn (performSearchFn demoModel)).currentMatchIdx = 0 ∧
    (goToNextMatchFn (performSearchFn demoModel)).outputScroll = 0 ∧
    (goToNextMatchFn (performSearchFn demoModel)).autoScroll = false ∧
    (goToNextMatchFn (goToNextMatchFn (performSearchFn demoModel))).currentMatchIdx = 1 ∧
    (goToNextMatchFn (goToNextMatchFn (performSearchFn demoModel))).outputScroll = 2 ∧
    (goToNextMatchFn (goToNextMatchFn (goToNextMatchFn
      (performSearchFn demoModel)))).currentMatchIdx = 0 ∧
    (goToNextMatchFn (goToNextMatchFn (goToNextMatchFn
      (performSearchFn demoModel)))).outputScroll = 0 ∧
    (goToPrevMatchFn (performSearchFn demoModel)).currentMatchIdx = 1 ∧
    (goToPrevMatchFn (performSearchFn demoModel)).outputScroll = 2 ∧
    (goToPrevMatchFn (performSearchFn demoModel)).autoScroll = false := by
  refine ⟨?_, ?_, by decide, by decide, by decide, by decide, by decide, by decide,
    by decide, by decide, by decide, by decide, by decide⟩
  · show i ∈ (if m.searchText = "" then []
        else searchLines m.searchText 0 m.outputLines) ↔ _
    by_cases ht : m.searchText = ""
    · rw [if_pos ht]
      constructor
      · intro hmem
        exact absurd hmem (List.not_mem_nil i)
      · intro hmem
        exact absurd ht hmem.1
    · rw [if_neg ht]
      constructor
      · intro hmem
        obtain ⟨-, line, hget, hc⟩ := searchLines_spec m.searchText m.outputLines 0 i hmem
        rw [Nat.sub_zero] at hget
        exact ⟨ht, line, hget, hc⟩
      · intro hmem
        obtain ⟨-, line, hget, hc⟩ := hmem
        have hm := searchLines_mem_of m.searchText m.outputLines 0 i line hget hc
        rw [Nat.zero_add] at hm
        exact hm
  · show List.Pairwise (fun a b => a < b)
        (if m.searchText = "" then [] else searchLines m.searchText 0 m.outputLines)
    by_cases ht : m.searchText = ""
    · rw [if_pos ht]
      exact List.Pairwise.nil
    · rw [if_neg ht]
      exact searchLines_pairwise m.searchText m.outputLines 0
